import Mathlib

/-!
Verification of the port-discovery, target-affinity-cache and
exclusive-control logic of the `EspSerial` class
(pytest-embedded-serial-esp/pytest_embedded_serial_esp/serial.py).

The Python code is shallowly embedded: list/dict operations become
explicit list functions, the stable `list.sort` becomes a stable
insertion sort over the code-point comparator, and the external
libraries (esptool, pyserial, the serial base class) are modelled as
opaque parameters or injectable step outcomes, exactly at the call
boundary the source uses.
-/

/- ===============================================================
   DEFINITIONS
   =============================================================== -/

/- ---------------------------------------------------------------
   Python string comparison and stable sorting
   --------------------------------------------------------------- -/

/-- Lexicographic comparison of character lists by code point: the
meaning of Python string comparison, used by `ports.sort()`. -/
def charListLe : List Char → List Char → Bool
  | [], _ => true
  | _ :: _, [] => false
  | a :: as, b :: bs => if a = b then charListLe as bs else decide (a < b)

/-- String comparison by code points, as Python compares `str`. -/
def pyStrLe (a b : String) : Bool := charListLe a.data b.data

/-- Stable insertion of an element: the element is placed after every
existing element that compares less-or-equal to it, preserving the
relative order of equal elements (the stability contract of
Python's `list.sort`). -/
def insertLe (le : α → α → Bool) (a : α) : List α → List α
  | [] => [a]
  | b :: bs => if le b a then b :: insertLe le a bs else a :: b :: bs

/-- Stable sort (insertion sort), modelling Python's stable
`list.sort()` with comparator `le`. -/
def pySort (le : α → α → Bool) (l : List α) : List α :=
  l.foldl (fun acc a => insertLe le a acc) []

/-- `u ≤ v` on booleans with `false < true`: how Python compares the
keys produced by a Bool-valued `key=` function. -/
def boolLe (u v : Bool) : Bool := !u || v

/-- Python's `ports.sort(key=f)` for a Bool-valued key `f`: stable
sort by the key, `False` before `True`. -/
def pySortKey (key : α → Bool) (l : List α) : List α :=
  pySort (fun x y => boolLe (key x) (key y)) l

/-- `ports.sort()` on a list of strings. -/
def pyStrSort (l : List String) : List String := pySort pyStrLe l

/- ---------------------------------------------------------------
   Data model of EspSerial.__init__
   (pytest_embedded_serial_esp/serial.py, lines 43-109)
   --------------------------------------------------------------- -/

/-- The value returned by the chip-protocol library's detection
routine (esptool.get_default_connected_device): the chosen serial
port and the chip name of the device found there. -/
structure DetectedChip where
  serial_port : String
  CHIP_NAME : String
deriving DecidableEq

/-- The two ValueError exits of EspSerial.__init__: the
unsupported-target error (carrying the offending value and the
supported chip list, lines 79-83) and the could-not-auto-detect
error (line 92). -/
inductive InitError
  | unsupportedTarget (value : Option String) (supported : List String)
  | deviceNotFound
deriving DecidableEq

/-- The argument record of the single call the constructor makes to
esptool.get_default_connected_device (lines 86-92): the candidate
port list, the explicit port argument, and the literal
connect_attempts=3. -/
structure DetectCall where
  ports : List String
  explicitPort : Option String
  connect_attempts : Nat
deriving DecidableEq

instance exceptDecEq {ε α : Type} [DecidableEq ε] [DecidableEq α] :
    DecidableEq (Except ε α) := fun x y =>
  match x, y with
  | .error a, .error b =>
    if h : a = b then .isTrue (h ▸ rfl)
    else .isFalse (fun hh => h (Except.error.inj hh))
  | .error _, .ok _ => .isFalse (fun hh => Except.noConfusion hh)
  | .ok _, .error _ => .isFalse (fun hh => Except.noConfusion hh)
  | .ok a, .ok b =>
    if h : a = b then .isTrue (h ▸ rfl)
    else .isFalse (fun hh => h (Except.ok.inj hh))

/-- Observable outcome of EspSerial.__init__: whether (and with which
arguments) the detection library was invoked, and either the resolved
(serial_port, normalized target) pair or the raised error. -/
structure InitOutcome where
  detectionCall : Option DetectCall
  result : Except InitError (String × String)
deriving DecidableEq

/-- The keyword arguments of EspSerial.__init__ that the discovery
logic reads, together with the host state it consults:
esptool.get_port_list() and self.occupied_ports.keys(). -/
structure InitArgs where
  target : Option String
  beta_target : Option String
  port : Option String
  available_ports : List String
  occupied_ports : List String
  port_target_cache : List (String × String)
deriving DecidableEq

/-- Python's `a or b` on optional strings: `None` and the empty
string are falsy (line 57, `esptool_target = beta_target or target`). -/
def pyOrStr (a b : Option String) : Option String :=
  match a with
  | some s => if s = "" then b else some s
  | none => b

/-- Truthiness of an optional string (`if esptool_target:` line 67). -/
def strTruthy : Option String → Bool
  | some s => decide (s ≠ "")
  | none => false

/-- First-occurrence deduplication with an accumulator of already
seen elements; `dedupAux [] l` models the element set of `set(l)`
(the iteration order is irrelevant here because the caller sorts the
result immediately, line 64). -/
def dedupAux (seen : List String) : List String → List String
  | [] => []
  | a :: as => if a ∈ seen then dedupAux seen as else a :: dedupAux (a :: seen) as

/-- `list(set(available_ports) - set(self.occupied_ports.keys()))`
(line 60): the available ports, deduplicated, minus the occupied
ones. -/
def pySetDiff (available occupied : List String) : List String :=
  (dedupAux [] available).filter (fun p => decide (p ∉ occupied))

/-- Lines 67-71: for each (cached port, cached target) entry, in
insertion order, if the cached target equals the expected target and
the cached port is among the candidates, stable-sort the candidates
by the key `x == cached port` — which moves that port to the back of
the list (the comment at line 65 notes esptool will reverse the
list, so the back is tried first). -/
def prioritizeCache (cache : List (String × String)) (t : String)
    (ports : List String) : List String :=
  cache.foldl
    (fun ps e =>
      if e.2 = t ∧ e.1 ∈ ps then pySortKey (fun x => decide (x = e.1)) ps else ps)
    ports

/-- `['auto'] + self.ESPTOOL_CHIPS` (line 78). -/
def targetValidList (chips : List String) : List String := "auto" :: chips

/-- `esptool_target not in (['auto'] + self.ESPTOOL_CHIPS)` is the
failure test (line 78); this is its negation. A `None` target is not
a member of a list of strings, so it fails the test. -/
def targetOk (chips : List String) : Option String → Bool
  | some s => decide (s ∈ targetValidList chips)
  | none => false

/-- `esp.CHIP_NAME.lower().replace('-', '')` (line 99), on the ASCII
chip names esptool uses. -/
def normalizeChip (s : String) : String :=
  String.mk ((s.data.map Char.toLower).filter (fun c => decide (c ≠ '-')))

/-- The local variable `ports` of EspSerial.__init__ (lines 58-76):
an explicit port is used alone; otherwise the available ports minus
the occupied ones, sorted ascending, then reordered by the
affinity-cache loop when the expected target is truthy. -/
def candidatePorts (a : InitArgs) : List String :=
  match a.port with
  | none =>
    let sorted := pyStrSort (pySetDiff a.available_ports a.occupied_ports)
    if strTruthy (pyOrStr a.beta_target a.target) then
      prioritizeCache a.port_target_cache
        ((pyOrStr a.beta_target a.target).getD "") sorted
    else sorted
  | some p => [p]

/-- Shallow embedding of EspSerial.__init__ (lines 43-109).
`chips` stands for the class attribute ESPTOOL_CHIPS (the supported
target list of the installed esptool), and `detect` for
esptool.get_default_connected_device, an external routine returning
at most one connected device. Steps, in source order: compute the
candidate port list (sorted set difference, then the cache
reordering) unless an explicit port was given; validate the target,
raising ValueError otherwise; invoke detection once with
connect_attempts=3; raise ValueError if nothing was found; otherwise
normalize the chip name and record the resolved pair. -/
def EspSerial_init (chips : List String) (a : InitArgs)
    (detect : DetectCall → Option DetectedChip) : InitOutcome :=
  let esptool_target := pyOrStr a.beta_target a.target
  if targetOk chips esptool_target then
    let call : DetectCall := ⟨candidatePorts a, a.port, 3⟩
    match detect call with
    | some esp =>
      ⟨some call, .ok (esp.serial_port, normalizeChip esp.CHIP_NAME)⟩
    | none => ⟨some call, .error .deviceNotFound⟩
  else
    ⟨none, .error (.unsupportedTarget esptool_target chips)⟩

/- ---------------------------------------------------------------
   The port-target affinity cache (a Python dict) and _post_init
   --------------------------------------------------------------- -/

/-- Python dict assignment `d[k] = v` on an association list with
unique keys: an existing entry for `k` is overwritten in place, a
new key is appended. -/
def dictSet (cache : List (String × String)) (k v : String) :
    List (String × String) :=
  if cache.any (fun e => decide (e.1 = k)) then
    cache.map (fun e => if e.1 = k then (k, v) else e)
  else cache ++ [(k, v)]

/-- Python dict lookup `d.get(k)`. -/
def dictGet (cache : List (String × String)) (k : String) : Option String :=
  (cache.find? (fun e => decide (e.1 = k))).map (fun e => e.2)

/-- The keys of the dict are pairwise distinct (true of every Python
dict). -/
def keysNodup (cache : List (String × String)) : Prop :=
  (cache.map (fun e => e.1)).Nodup

/-- EspSerial._post_init (lines 111-114):
`self._port_target_cache[self.port] = self.target`. -/
def EspSerial_post_init (cache : List (String × String))
    (port target : String) : List (String × String) :=
  dictSet cache port target

/-- Construction flow for the cache: __init__ never writes the cache
(it only reads it at lines 67-71); _post_init runs only after a
successful construction and records the resolved pair. Returns the
cache after the construction attempt together with the init
outcome. -/
def EspSerial_construct (chips : List String) (a : InitArgs)
    (detect : DetectCall → Option DetectedChip) :
    List (String × String) × InitOutcome :=
  let o := EspSerial_init chips a detect
  match o.result with
  | .ok (p, t) => (EspSerial_post_init a.port_target_cache p t, o)
  | .error _ => (a.port_target_cache, o)

/- ---------------------------------------------------------------
   The exclusive-control session: EspSerial.use_esptool
   (serial.py, lines 116-150), hard_reset (155-158), _start (152-153)
   --------------------------------------------------------------- -/

/-- The observable actions of one wrapped call, in program order.
suspendForwarding/resumeForwarding are the entry and exit of
self.disable_redirect_serial(); openRaw is pyserial.serial_for_url;
getSettings is _s.get_settings(); detectChip, connectHardReset and
runStub are the esptool calls at lines 135-137; opRun is the
invocation of the decorated function's body; stubHardReset,
applySettings and closeRaw are the finally-block statements at lines
140-143. -/
inductive Event
  | suspendForwarding
  | openRaw
  | getSettings
  | detectChip
  | connectHardReset
  | runStub
  | opRun
  | stubHardReset
  | applySettings
  | closeRaw
  | resumeForwarding
deriving DecidableEq

/-- The exceptions a wrapped call can surface: a failure of one of
the three esptool steps, a failure of the decorated body, the
AttributeError raised by `self.stub.hard_reset()` when self.stub is
still None, and failures of the two cleanup statements. -/
inductive WrapError
  | detectFailed
  | connectFailed
  | runStubFailed
  | opFailed
  | hardResetFailed
  | applySettingsFailed
  | attributeErrorNoneStub
deriving DecidableEq

/-- Failure injection for the external calls a wrapped invocation
makes: esptool.detect_chip, esp.connect, esp.run_stub, the decorated
body, stub.hard_reset, and _s.apply_settings. -/
structure StepOutcomes where
  detect_ok : Bool
  connect_ok : Bool
  run_stub_ok : Bool
  op_ok : Bool
  hard_reset_ok : Bool
  apply_settings_ok : Bool
deriving DecidableEq

/-- Result of one wrapped call: the action trace, what the caller
sees (a return or a raised exception), and whether self.stub holds a
stub handle afterwards. -/
structure WrapResult where
  trace : List Event
  outcome : Except WrapError Unit
  stubAfter : Bool
deriving DecidableEq

/-- The try-suite of the wrapper (lines 134-138): detect, connect,
run_stub — each aborting the suite when it raises — then the
decorated body, whose own actions are `opEvents`. `stubBefore` is
whether self.stub already holds a handle (False on a fresh device,
__init__ line 96 sets self.stub = None). Returns the events
performed, the value of self.stub when the suite ends, and the
pending exception if one was raised. -/
def useEsptoolBody (stubBefore : Bool) (o : StepOutcomes)
    (opEvents : List Event) : List Event × Bool × Option WrapError :=
  if !o.detect_ok then
    ([.detectChip], stubBefore, some .detectFailed)
  else if !o.connect_ok then
    ([.detectChip, .connectHardReset], stubBefore, some .connectFailed)
  else if !o.run_stub_ok then
    ([.detectChip, .connectHardReset, .runStub], stubBefore, some .runStubFailed)
  else if !o.op_ok then
    ([.detectChip, .connectHardReset, .runStub, .opRun] ++ opEvents, true,
      some .opFailed)
  else
    ([.detectChip, .connectHardReset, .runStub, .opRun] ++ opEvents, true, none)

/-- The finally-suite (lines 140-143), with Python semantics: a
statement that raises replaces the pending exception and aborts the
rest of the suite. `self.stub.hard_reset()` on a None stub raises
AttributeError before any device action; only after it succeeds do
`_s.apply_settings(settings)` and `_s.close()` run. If the whole
suite completes, the pending exception (if any) is re-raised. -/
def useEsptoolFinally (stub : Bool) (o : StepOutcomes)
    (pending : Option WrapError) : List Event × Option WrapError :=
  if !stub then
    ([], some .attributeErrorNoneStub)
  else if !o.hard_reset_ok then
    ([.stubHardReset], some .hardResetFailed)
  else if !o.apply_settings_ok then
    ([.stubHardReset, .applySettings], some .applySettingsFailed)
  else
    ([.stubHardReset, .applySettings, .closeRaw], pending)

/-- Shallow embedding of one call to a use_esptool-wrapped method
(lines 130-148). The `with self.disable_redirect_serial():` block is
modelled from the spec: `disable_redirect_serial` is defined in the
serial base class (pytest-embedded-serial, not part of these
sources); per the spec it suspends the background log-forwarding
session on entry and resumes it on exit, also when the block is left
by an exception. Then: open the raw connection, snapshot its
settings, run the try-suite, run the finally-suite, and leave the
with-block. -/
def use_esptool (stubBefore : Bool) (o : StepOutcomes)
    (opEvents : List Event) : WrapResult :=
  let b := useEsptoolBody stubBefore o opEvents
  let f := useEsptoolFinally b.2.1 o b.2.2
  { trace := .suspendForwarding :: .openRaw :: .getSettings ::
      (b.1 ++ f.1 ++ [.resumeForwarding])
    outcome := match f.2 with
      | some e => .error e
      | none => .ok ()
    stubAfter := b.2.1 }

/-- EspSerial.hard_reset (lines 155-158): a use_esptool-wrapped
method whose body is `pass` — it contributes no actions of its own
(opEvents = []). -/
def hard_reset (stubBefore : Bool) (o : StepOutcomes) : WrapResult :=
  use_esptool stubBefore o []

/-- EspSerial._start (lines 152-153): `self.hard_reset()`. -/
def EspSerial_start (stubBefore : Bool) (o : StepOutcomes) : WrapResult :=
  hard_reset stubBefore o

/- ===============================================================
   THEOREMS
   =============================================================== -/

/- ---------------------------------------------------------------
   Basic lemmas about the stable sort
   --------------------------------------------------------------- -/

theorem insertLe_perm (le : α → α → Bool) (a : α) (l : List α) :
    (insertLe le a l).Perm (a :: l) := by
  induction l with
  | nil => simp [insertLe]
  | cons b bs ih =>
    by_cases h : le b a = true
    · simp only [insertLe, h, if_true]
      exact (ih.cons b).trans (List.Perm.swap a b bs)
    · simp [insertLe, h]

theorem foldl_insertLe_perm (le : α → α → Bool) :
    ∀ (l acc : List α),
      (l.foldl (fun acc a => insertLe le a acc) acc).Perm (l ++ acc) := by
  intro l
  induction l with
  | nil => intro acc; simp
  | cons a l ih =>
    intro acc
    have h1 := ih (insertLe le a acc)
    have h2 : (l ++ insertLe le a acc).Perm (l ++ a :: acc) :=
      (insertLe_perm le a acc).append_left l
    have h3 : (l ++ a :: acc).Perm (a :: (l ++ acc)) := List.perm_middle
    simpa using (h1.trans (h2.trans h3))

theorem pySort_perm (le : α → α → Bool) (l : List α) :
    (pySort le l).Perm l := by
  simpa using foldl_insertLe_perm le l []

theorem mem_pySort (le : α → α → Bool) (l : List α) (a : α) :
    a ∈ pySort le l ↔ a ∈ l :=
  (pySort_perm le l).mem_iff

theorem pairwise_insertLe (le : α → α → Bool)
    (htrans : ∀ a b c, le a b = true → le b c = true → le a c = true)
    (htot : ∀ a b, le a b = true ∨ le b a = true)
    (a : α) :
    ∀ l : List α, l.Pairwise (fun x y => le x y = true) →
      (insertLe le a l).Pairwise (fun x y => le x y = true) := by
  intro l
  induction l with
  | nil => intro _; simp [insertLe]
  | cons b bs ih =>
    intro h
    rcases List.pairwise_cons.mp h with ⟨hb, hbs⟩
    by_cases hba : le b a = true
    · simp only [insertLe, hba, if_true]
      refine List.pairwise_cons.mpr ⟨?_, ih hbs⟩
      intro x hx
      rcases List.mem_cons.mp ((insertLe_perm le a bs).mem_iff.mp hx) with hx' | hx'
      · exact hx' ▸ hba
      · exact hb x hx'
    · have hab : le a b = true := (htot a b).resolve_right hba
      simp only [insertLe, hba, if_false]
      refine List.pairwise_cons.mpr ⟨?_, h⟩
      intro x hx
      rcases List.mem_cons.mp hx with hx' | hx'
      · exact hx' ▸ hab
      · exact htrans a b x hab (hb x hx')

theorem pySort_pairwise (le : α → α → Bool)
    (htrans : ∀ a b c, le a b = true → le b c = true → le a c = true)
    (htot : ∀ a b, le a b = true ∨ le b a = true) :
    ∀ (l acc : List α), acc.Pairwise (fun x y => le x y = true) →
      (l.foldl (fun acc a => insertLe le a acc) acc).Pairwise
        (fun x y => le x y = true) := by
  intro l
  induction l with
  | nil => intro acc h; simpa using h
  | cons a l ih =>
    intro acc h
    exact ih (insertLe le a acc) (pairwise_insertLe le htrans htot a acc h)

theorem charListLe_total : ∀ x y : List Char,
    charListLe x y = true ∨ charListLe y x = true := by
  intro x
  induction x with
  | nil => intro y; left; simp [charListLe]
  | cons a as ih =>
    intro y
    cases y with
    | nil => right; simp [charListLe]
    | cons b bs =>
      by_cases hab : a = b
      · subst hab
        simpa [charListLe] using ih bs
      · rcases lt_or_gt_of_ne hab with h | h
        · left; simp [charListLe, hab, h]
        · right
          have hba : b ≠ a := fun hh => hab hh.symm
          simp [charListLe, hba, h]

theorem charListLe_trans : ∀ x y z : List Char,
    charListLe x y = true → charListLe y z = true → charListLe x z = true := by
  intro x
  induction x with
  | nil => intro y z _ _; simp [charListLe]
  | cons a as ih =>
    intro y z h1 h2
    cases y with
    | nil => simp [charListLe] at h1
    | cons b bs =>
      cases z with
      | nil => simp [charListLe] at h2
      | cons c cs =>
        by_cases hab : a = b
        · subst hab
          by_cases hbc : a = c
          · subst hbc
            simp only [charListLe, if_pos rfl] at h1 h2 ⊢
            exact ih bs cs h1 h2
          · simp only [charListLe, if_pos rfl, if_neg hbc] at h1 h2 ⊢
            exact h2
        · simp only [charListLe, if_neg hab] at h1
          have halt : a < b := of_decide_eq_true h1
          by_cases hbc : b = c
          · subst hbc
            simp only [charListLe, if_neg hab]
            exact decide_eq_true halt
          · simp only [charListLe, if_neg hbc] at h2
            have hblt : b < c := of_decide_eq_true h2
            have hac : a < c := lt_trans halt hblt
            simp only [charListLe, if_neg (ne_of_lt hac)]
            exact decide_eq_true hac

theorem pyStrLe_total (a b : String) : pyStrLe a b = true ∨ pyStrLe b a = true :=
  charListLe_total a.data b.data

theorem pyStrLe_trans (a b c : String) :
    pyStrLe a b = true → pyStrLe b c = true → pyStrLe a c = true :=
  charListLe_trans a.data b.data c.data

/-- `ports.sort()` yields a list sorted ascending by code points. -/
theorem pyStrSort_sorted (l : List String) :
    (pyStrSort l).Pairwise (fun x y => pyStrLe x y = true) :=
  pySort_pairwise pyStrLe pyStrLe_trans pyStrLe_total l [] (by simp)

theorem pyStrSort_perm (l : List String) : (pyStrSort l).Perm l :=
  pySort_perm pyStrLe l

/- ---------------------------------------------------------------
   Stable Bool-key sort is the stable partition
   --------------------------------------------------------------- -/

theorem insertLe_all_le (le : α → α → Bool) (a : α) :
    ∀ l : List α, (∀ b ∈ l, le b a = true) → insertLe le a l = l ++ [a] := by
  intro l
  induction l with
  | nil => intro _; simp [insertLe]
  | cons b bs ih =>
    intro h
    have hb : le b a = true := h b (List.mem_cons_self b bs)
    simp only [insertLe, hb, if_true, List.cons_append]
    rw [ih (fun x hx => h x (List.mem_cons_of_mem b hx))]

theorem insertLe_keyFalse (key : α → Bool) (a : α) (ha : key a = false) :
    ∀ F T : List α, (∀ x ∈ F, key x = false) → (∀ x ∈ T, key x = true) →
      insertLe (fun x y => boolLe (key x) (key y)) a (F ++ T) = F ++ a :: T := by
  intro F
  induction F with
  | nil =>
    intro T _ hT
    cases T with
    | nil => simp [insertLe]
    | cons b bs =>
      have hb : key b = true := hT b (List.mem_cons_self b bs)
      simp [insertLe, boolLe, hb, ha]
  | cons c cs ih =>
    intro T hF hT
    have hc : key c = false := hF c (List.mem_cons_self c cs)
    have hcond : boolLe (key c) (key a) = true := by simp [boolLe, hc, ha]
    simp only [List.cons_append, insertLe, hcond, if_true, List.append_eq]
    rw [ih T (fun x hx => hF x (List.mem_cons_of_mem c hx)) hT]

theorem foldl_insert_partition (key : α → Bool) :
    ∀ (l F T : List α), (∀ x ∈ F, key x = false) → (∀ x ∈ T, key x = true) →
      l.foldl (fun acc a => insertLe (fun x y => boolLe (key x) (key y)) a acc)
          (F ++ T) =
        (F ++ l.filter (fun x => !key x)) ++ (T ++ l.filter key) := by
  intro l
  induction l with
  | nil => intro F T _ _; simp
  | cons a l ih =>
    intro F T hF hT
    by_cases ha : key a = true
    · have hstep :
          insertLe (fun x y => boolLe (key x) (key y)) a (F ++ T) =
            F ++ (T ++ [a]) := by
        rw [← List.append_assoc]
        exact insertLe_all_le _ a (F ++ T)
          (fun b _ => by simp [boolLe, ha])
      have hT' : ∀ x ∈ T ++ [a], key x = true := by
        intro x hx
        rcases List.mem_append.mp hx with hx' | hx'
        · exact hT x hx'
        · simpa using (List.mem_singleton.mp hx') ▸ ha
      simp only [List.foldl_cons, hstep]
      rw [ih F (T ++ [a]) hF hT']
      simp [ha, List.filter_cons, List.append_assoc]
    · have ha' : key a = false := by simpa using ha
      have hstep := insertLe_keyFalse key a ha' F T hF hT
      have hF' : ∀ x ∈ F ++ [a], key x = false := by
        intro x hx
        rcases List.mem_append.mp hx with hx' | hx'
        · exact hF x hx'
        · simpa using (List.mem_singleton.mp hx') ▸ ha'
      simp only [List.foldl_cons, hstep]
      have : F ++ a :: T = (F ++ [a]) ++ T := by simp
      rw [this, ih (F ++ [a]) T hF' hT]
      simp [ha', List.filter_cons, List.append_assoc]

/-- A stable sort by a Bool-valued key is exactly the stable
partition: key-`false` elements first, then key-`true` elements, each
group keeping its original relative order. -/
theorem pySortKey_partition (key : α → Bool) (l : List α) :
    pySortKey key l = l.filter (fun x => !key x) ++ l.filter key := by
  have h := foldl_insert_partition key l [] []
    (by intro x hx; cases hx) (by intro x hx; cases hx)
  simpa [pySortKey, pySort] using h

/- ---------------------------------------------------------------
   Lemmas about the dict operations and the candidate list
   --------------------------------------------------------------- -/

theorem mem_pySetDiff_not_occupied (available occupied : List String)
    (x : String) (hx : x ∈ pySetDiff available occupied) : x ∉ occupied := by
  have := List.of_mem_filter hx
  simpa using this

theorem find?_key_map_update (k v : String) :
    ∀ c : List (String × String), c.any (fun e => decide (e.1 = k)) = true →
      (c.map (fun e => if e.1 = k then (k, v) else e)).find?
          (fun e => decide (e.1 = k)) = some (k, v) := by
  intro c
  induction c with
  | nil => intro h; simp at h
  | cons e es ih =>
    intro h
    by_cases he : e.1 = k
    · simp only [List.map_cons, if_pos he]
      exact List.find?_cons_of_pos _ (by simp)
    · have h' : es.any (fun e => decide (e.1 = k)) = true := by
        simpa [List.any_cons, he] using h
      simp only [List.map_cons, if_neg he]
      rw [List.find?_cons_of_neg _ (by simpa using he)]
      exact ih h'

theorem find?_key_append_new (k v : String) :
    ∀ c : List (String × String), (∀ e ∈ c, ¬ e.1 = k) →
      (c ++ [(k, v)]).find? (fun e => decide (e.1 = k)) = some (k, v) := by
  intro c
  induction c with
  | nil =>
    intro _
    simp only [List.nil_append]
    exact List.find?_cons_of_pos _ (by simp)
  | cons e es ih =>
    intro hall
    have he : ¬ e.1 = k := hall e (List.mem_cons_self e es)
    rw [List.cons_append, List.find?_cons_of_neg _ (by simpa using he)]
    exact ih (fun x hx => hall x (List.mem_cons_of_mem e hx))

theorem find?_key_map_update_other (k v q : String) (hq : q ≠ k) :
    ∀ c : List (String × String),
      (c.map (fun e => if e.1 = k then (k, v) else e)).find?
          (fun e => decide (e.1 = q)) = c.find? (fun e => decide (e.1 = q)) := by
  intro c
  induction c with
  | nil => rfl
  | cons e es ih =>
    by_cases he : e.1 = k
    · have heq : ¬ e.1 = q := by rw [he]; exact Ne.symm hq
      simp only [List.map_cons, if_pos he]
      rw [List.find?_cons_of_neg _ (by simpa using Ne.symm hq),
        List.find?_cons_of_neg _ (by simpa using heq)]
      exact ih
    · simp only [List.map_cons, if_neg he]
      by_cases heq : e.1 = q
      · rw [List.find?_cons_of_pos _ (by simpa using heq),
          List.find?_cons_of_pos _ (by simpa using heq)]
      · rw [List.find?_cons_of_neg _ (by simpa using heq),
          List.find?_cons_of_neg _ (by simpa using heq)]
        exact ih

theorem find?_key_append_other (k v q : String) (hq : q ≠ k) :
    ∀ c : List (String × String),
      (c ++ [(k, v)]).find? (fun e => decide (e.1 = q)) =
        c.find? (fun e => decide (e.1 = q)) := by
  intro c
  induction c with
  | nil =>
    simp only [List.nil_append]
    rw [List.find?_cons_of_neg _ (by simpa using Ne.symm hq)]
  | cons e es ih =>
    by_cases heq : e.1 = q
    · rw [List.cons_append, List.find?_cons_of_pos _ (by simpa using heq),
        List.find?_cons_of_pos _ (by simpa using heq)]
    · rw [List.cons_append, List.find?_cons_of_neg _ (by simpa using heq),
        List.find?_cons_of_neg _ (by simpa using heq)]
      exact ih

theorem dictGet_dictSet_self (c : List (String × String)) (k v : String) :
    dictGet (dictSet c k v) k = some v := by
  unfold dictGet dictSet
  by_cases h : c.any (fun e => decide (e.1 = k)) = true
  · rw [if_pos h, find?_key_map_update k v c h]
    rfl
  · have hall : ∀ e ∈ c, ¬ e.1 = k := by
      intro e he hek
      exact h (List.any_eq_true.mpr ⟨e, he, by simpa using hek⟩)
    rw [if_neg h, find?_key_append_new k v c hall]
    rfl

theorem dictGet_dictSet_other (c : List (String × String)) (k v q : String)
    (hq : q ≠ k) : dictGet (dictSet c k v) q = dictGet c q := by
  unfold dictGet dictSet
  by_cases h : c.any (fun e => decide (e.1 = k)) = true
  · rw [if_pos h, find?_key_map_update_other k v q hq c]
  · rw [if_neg h, find?_key_append_other k v q hq c]

theorem keysNodup_dictSet (c : List (String × String)) (k v : String)
    (h : keysNodup c) : keysNodup (dictSet c k v) := by
  unfold dictSet
  by_cases hc : c.any (fun e => decide (e.1 = k)) = true
  · rw [if_pos hc]
    unfold keysNodup at h ⊢
    have hmap : (c.map (fun e => if e.1 = k then (k, v) else e)).map
        (fun e => e.1) = c.map (fun e => e.1) := by
      rw [List.map_map]
      refine List.map_congr_left ?_
      intro e _
      by_cases he : e.1 = k
      · simp [he]
      · simp [he]
    rw [hmap]
    exact h
  · rw [if_neg hc]
    unfold keysNodup at h ⊢
    rw [List.map_append, List.nodup_append]
    refine ⟨h, by simp, ?_⟩
    intro x hx hx'
    simp only [List.map_cons, List.map_nil, List.mem_singleton] at hx'
    subst hx'
    rcases List.mem_map.mp hx with ⟨e, he, hek⟩
    exact hc (List.any_eq_true.mpr ⟨e, he, by simpa using hek⟩)

/-- A single cache entry (p, t) whose target matches and whose port
is among the candidates: the reordering loop is a stable partition
that moves p to the back, leaving the others in order. -/
theorem prioritizeCache_single (p t : String) (base : List String)
    (h : p ∈ base) :
    prioritizeCache [(p, t)] t base =
      base.filter (fun x => decide (x ≠ p)) ++
        base.filter (fun x => decide (x = p)) := by
  unfold prioritizeCache
  simp only [List.foldl_cons, List.foldl_nil]
  rw [if_pos (show True ∧ p ∈ base from ⟨trivial, h⟩)]
  rw [pySortKey_partition]
  congr 1
  refine List.filter_congr ?_
  intro x _
  simp [decide_not]

/- ---------------------------------------------------------------
   Characterization of EspSerial.__init__
   --------------------------------------------------------------- -/

theorem EspSerial_init_call (chips : List String) (a : InitArgs)
    (detect : DetectCall → Option DetectedChip) :
    (EspSerial_init chips a detect).detectionCall =
      if targetOk chips (pyOrStr a.beta_target a.target) = true
        then some ⟨candidatePorts a, a.port, 3⟩ else none := by
  unfold EspSerial_init
  by_cases h : targetOk chips (pyOrStr a.beta_target a.target) = true
  · simp only [h, if_true]
    cases detect ⟨candidatePorts a, a.port, 3⟩ <;> rfl
  · have h' : targetOk chips (pyOrStr a.beta_target a.target) = false := by
      simpa using h
    simp only [h', if_false, Bool.false_eq_true]

theorem EspSerial_init_invalid (chips : List String) (a : InitArgs)
    (detect : DetectCall → Option DetectedChip)
    (h : targetOk chips (pyOrStr a.beta_target a.target) = false) :
    EspSerial_init chips a detect =
      ⟨none, .error (.unsupportedTarget (pyOrStr a.beta_target a.target) chips)⟩ := by
  unfold EspSerial_init
  simp only [h, if_false, Bool.false_eq_true]

theorem EspSerial_init_detect_none (chips : List String) (a : InitArgs)
    (detect : DetectCall → Option DetectedChip)
    (hv : targetOk chips (pyOrStr a.beta_target a.target) = true)
    (hd : detect ⟨candidatePorts a, a.port, 3⟩ = none) :
    EspSerial_init chips a detect =
      ⟨some ⟨candidatePorts a, a.port, 3⟩, .error .deviceNotFound⟩ := by
  unfold EspSerial_init
  simp only [hv, if_true, hd]

theorem EspSerial_init_detect_some (chips : List String) (a : InitArgs)
    (detect : DetectCall → Option DetectedChip) (esp : DetectedChip)
    (hv : targetOk chips (pyOrStr a.beta_target a.target) = true)
    (hd : detect ⟨candidatePorts a, a.port, 3⟩ = some esp) :
    EspSerial_init chips a detect =
      ⟨some ⟨candidatePorts a, a.port, 3⟩,
        .ok (esp.serial_port, normalizeChip esp.CHIP_NAME)⟩ := by
  unfold EspSerial_init
  simp only [hv, if_true, hd]

/- ---------------------------------------------------------------
   Claims C1 and C3-C8: discovery, validation and the cache
   --------------------------------------------------------------- -/

/-- C1 (counterexample): with affinity cache mapping /dev/ttyUSB0 to
esp32, sorted candidates [/dev/ttyS0, /dev/ttyUSB0] and expected
target esp32, the list passed to detection is
[/dev/ttyS0, /dev/ttyUSB0] and not [/dev/ttyUSB0, /dev/ttyS0]: the
cache hit is not moved to the front of the list the constructor
hands to esptool, refuting the claim's concrete expectation. -/
theorem c1_counterexample :
    (EspSerial_init ["esp32"]
        ⟨some "esp32", none, none, ["/dev/ttyS0", "/dev/ttyUSB0"], [],
          [("/dev/ttyUSB0", "esp32")]⟩ (fun _ => none)).detectionCall =
      some ⟨["/dev/ttyS0", "/dev/ttyUSB0"], none, 3⟩ ∧
    (EspSerial_init ["esp32"]
        ⟨some "esp32", none, none, ["/dev/ttyS0", "/dev/ttyUSB0"], [],
          [("/dev/ttyUSB0", "esp32")]⟩ (fun _ => none)).detectionCall ≠
      some ⟨["/dev/ttyUSB0", "/dev/ttyS0"], none, 3⟩ := by decide

/-- C1 (amended): when an expected target t is given and truthy, a
candidate port with a cached affinity to exactly t is moved, by a
stable partition, to the BACK of the candidate list passed to the
detection routine (the library reverses the list, so the cache hit
is tried first); the remaining candidates keep their
lexicographically sorted order. In particular, with cache
/dev/ttyUSB0 to esp32, sorted candidates [/dev/ttyS0, /dev/ttyUSB0]
and expected target esp32, the list passed to detection is
[/dev/ttyS0, /dev/ttyUSB0]. -/
theorem c1_cache_hit_to_back (chips avail occ : List String) (p t : String)
    (detect : DetectCall → Option DetectedChip)
    (ht : t ≠ "") (hvalid : t ∈ targetValidList chips)
    (hmem : p ∈ pyStrSort (pySetDiff avail occ)) :
    (EspSerial_init chips ⟨some t, none, none, avail, occ, [(p, t)]⟩
        detect).detectionCall =
      some ⟨(pyStrSort (pySetDiff avail occ)).filter (fun x => decide (x ≠ p)) ++
          (pyStrSort (pySetDiff avail occ)).filter (fun x => decide (x = p)),
        none, 3⟩ := by
  have hcand : candidatePorts ⟨some t, none, none, avail, occ, [(p, t)]⟩ =
      (pyStrSort (pySetDiff avail occ)).filter (fun x => decide (x ≠ p)) ++
        (pyStrSort (pySetDiff avail occ)).filter (fun x => decide (x = p)) := by
    unfold candidatePorts
    simp only [pyOrStr, strTruthy, Option.getD]
    rw [if_pos (by simpa using decide_eq_true ht)]
    exact prioritizeCache_single p t _ hmem
  rw [EspSerial_init_call, hcand]
  rw [if_pos (by simp [pyOrStr, targetOk, hvalid])]

/-- C1 (witness): the amended theorem evaluated at the claim's
concrete scenario. -/
theorem c1_witness :
    (EspSerial_init ["esp32"]
        ⟨some "esp32", none, none, ["/dev/ttyS0", "/dev/ttyUSB0"], [],
          [("/dev/ttyUSB0", "esp32")]⟩ (fun _ => none)).detectionCall =
      some ⟨["/dev/ttyS0", "/dev/ttyUSB0"], none, 3⟩ := by
  have h := c1_cache_hit_to_back ["esp32"] ["/dev/ttyS0", "/dev/ttyUSB0"] []
    "/dev/ttyUSB0" "esp32" (fun _ => none) (by decide) (by decide) (by decide)
  rw [h]
  decide

/-- C3 (counterexample): with both target and beta_target absent,
construction does NOT pass target validation: it raises the
unsupported-target ValueError naming None and the supported list,
and never invokes detection, even though a device is connected. -/
theorem c3_counterexample :
    EspSerial_init ["esp32"] ⟨none, none, none, ["/dev/ttyUSB0"], [], []⟩
        (fun _ => some ⟨"/dev/ttyUSB0", "ESP32"⟩) =
      ⟨none, .error (.unsupportedTarget none ["esp32"])⟩ := by decide

/-- C3 (amended): target validation passes exactly when the
effective expected target (beta_target or target) is the literal
"auto" or a member of the supported-target list; an absent expected
target (None) fails the membership test like any unsupported value,
and every failing value raises the UnsupportedTargetError naming the
offending value and the supported set. -/
theorem c3_validation_characterization (chips : List String) (a : InitArgs)
    (detect : DetectCall → Option DetectedChip) :
    targetOk chips none = false ∧
    ((EspSerial_init chips a detect).detectionCall ≠ none ↔
      targetOk chips (pyOrStr a.beta_target a.target) = true) ∧
    (targetOk chips (pyOrStr a.beta_target a.target) = false →
      (EspSerial_init chips a detect).result =
        .error (.unsupportedTarget (pyOrStr a.beta_target a.target) chips)) := by
  refine ⟨rfl, ?_, ?_⟩
  · rw [EspSerial_init_call]
    by_cases h : targetOk chips (pyOrStr a.beta_target a.target) = true
    · simp [h]
    · simp [h]
  · intro h
    rw [EspSerial_init_invalid chips a detect h]

/-- C3 (witness): the characterization applied to an absent target
at a concrete input. -/
theorem c3_witness :
    targetOk ["esp32"] none = false ∧
    (EspSerial_init ["esp32"] ⟨none, none, none, ["/dev/ttyUSB0"], [], []⟩
        (fun _ => some ⟨"/dev/ttyUSB0", "ESP32"⟩)).result =
      .error (.unsupportedTarget none ["esp32"]) := by
  have h := c3_validation_characterization ["esp32"]
    ⟨none, none, none, ["/dev/ttyUSB0"], [], []⟩
    (fun _ => some ⟨"/dev/ttyUSB0", "ESP32"⟩)
  exact ⟨h.1, h.2.2 (by decide)⟩

/-- C5 (counterexample): in the claim's concrete scenario the
expected target is absent, so construction raises the
unsupported-target error BEFORE any candidate list is handed to the
detection routine — detection is never invoked, contradicting the
claim that the list handed to detection is
[/dev/ttyS0, /dev/ttyUSB0]. -/
theorem c5_counterexample :
    (EspSerial_init ["esp32"]
        ⟨none, none, none, ["/dev/ttyUSB1", "/dev/ttyUSB0", "/dev/ttyS0"],
          ["/dev/ttyUSB1"], []⟩ (fun _ => none)).detectionCall = none ∧
    (EspSerial_init ["esp32"]
        ⟨none, none, none, ["/dev/ttyUSB1", "/dev/ttyUSB0", "/dev/ttyS0"],
          ["/dev/ttyUSB1"], []⟩ (fun _ => none)).result =
      .error (.unsupportedTarget none ["esp32"]) := by decide

/-- C5 (amended): when no explicit port is given and the expected
target is the wildcard "auto" (an absent target fails validation
before detection), the candidate list handed to the detection
routine is exactly the lexicographically ascending sort of the
available host ports minus the occupied ports, so a chosen port
drawn from that list is never occupied; with candidates
[/dev/ttyUSB1, /dev/ttyUSB0, /dev/ttyS0] and occupied /dev/ttyUSB1
that list is [/dev/ttyS0, /dev/ttyUSB0]. -/
theorem c5_sorted_diff (chips avail occ : List String)
    (detect : DetectCall → Option DetectedChip) :
    (EspSerial_init chips ⟨some "auto", none, none, avail, occ, []⟩
        detect).detectionCall =
      some ⟨pyStrSort (pySetDiff avail occ), none, 3⟩ ∧
    (∀ x ∈ pyStrSort (pySetDiff avail occ), x ∉ occ) ∧
    (pyStrSort (pySetDiff avail occ)).Pairwise (fun x y => pyStrLe x y = true) ∧
    ∀ esp : DetectedChip,
      detect ⟨pyStrSort (pySetDiff avail occ), none, 3⟩ = some esp →
        esp.serial_port ∈ pyStrSort (pySetDiff avail occ) →
          (EspSerial_init chips ⟨some "auto", none, none, avail, occ, []⟩
              detect).result =
            .ok (esp.serial_port, normalizeChip esp.CHIP_NAME) ∧
          esp.serial_port ∉ occ := by
  have hcand : candidatePorts ⟨some "auto", none, none, avail, occ, []⟩ =
      pyStrSort (pySetDiff avail occ) := by
    simp [candidatePorts, pyOrStr, strTruthy, prioritizeCache]
  have hok : targetOk chips (pyOrStr (none : Option String) (some "auto")) =
      true := by
    simp [pyOrStr, targetOk, targetValidList]
  have hmemocc : ∀ x ∈ pyStrSort (pySetDiff avail occ), x ∉ occ := by
    intro x hx
    exact mem_pySetDiff_not_occupied avail occ x ((mem_pySort _ _ x).mp hx)
  refine ⟨?_, hmemocc, pyStrSort_sorted _, ?_⟩
  · rw [EspSerial_init_call, hcand, if_pos hok]
  · intro esp hd hmem
    refine ⟨?_, hmemocc _ hmem⟩
    rw [EspSerial_init_detect_some chips _ detect esp hok
      (by rw [hcand]; exact hd)]

/-- C5 (witness): the amended theorem at the claim's concrete
scenario. -/
theorem c5_witness :
    (EspSerial_init ["esp32"]
        ⟨some "auto", none, none, ["/dev/ttyUSB1", "/dev/ttyUSB0", "/dev/ttyS0"],
          ["/dev/ttyUSB1"], []⟩ (fun _ => none)).detectionCall =
      some ⟨["/dev/ttyS0", "/dev/ttyUSB0"], none, 3⟩ := by
  have h := (c5_sorted_diff ["esp32"]
    ["/dev/ttyUSB1", "/dev/ttyUSB0", "/dev/ttyS0"] ["/dev/ttyUSB1"]
    (fun _ => none)).1
  rw [h]
  decide

/-- C6: for every expected target value t that is neither "auto" nor
a member of the supported-target list, construction fails with the
unsupported-target error and the detection routine is never invoked
(validation precedes detection on all such inputs). -/
theorem c6_invalid_target_never_detects (chips : List String) (a : InitArgs)
    (detect : DetectCall → Option DetectedChip) (t : String)
    (heff : pyOrStr a.beta_target a.target = some t)
    (h1 : t ≠ "auto") (h2 : t ∉ chips) :
    (EspSerial_init chips a detect).detectionCall = none ∧
    (EspSerial_init chips a detect).result =
      .error (.unsupportedTarget (some t) chips) := by
  have hok : targetOk chips (pyOrStr a.beta_target a.target) = false := by
    rw [heff]
    simp [targetOk, targetValidList, h1, h2]
  constructor
  · rw [EspSerial_init_call, if_neg (by simp [hok])]
  · rw [EspSerial_init_invalid chips a detect hok, heff]

/-- C6 (witness): an unsupported target at a concrete input, with a
device present that would have been detected. -/
theorem c6_witness :
    (EspSerial_init ["esp32"]
        ⟨some "esp8266", none, none, ["/dev/ttyUSB0"], [], []⟩
        (fun _ => some ⟨"/dev/ttyUSB0", "ESP32"⟩)).detectionCall = none ∧
    (EspSerial_init ["esp32"]
        ⟨some "esp8266", none, none, ["/dev/ttyUSB0"], [], []⟩
        (fun _ => some ⟨"/dev/ttyUSB0", "ESP32"⟩)).result =
      .error (.unsupportedTarget (some "esp8266") ["esp32"]) :=
  c6_invalid_target_never_detects ["esp32"]
    ⟨some "esp8266", none, none, ["/dev/ttyUSB0"], [], []⟩
    (fun _ => some ⟨"/dev/ttyUSB0", "ESP32"⟩) "esp8266"
    (by decide) (by decide) (by decide)

/-- C7: the affinity cache is mutated only after a successful bind:
on every construction failure the cache is returned unchanged, and
on success the post-construction hook records exactly the resolved
(port, target) pair, overwriting any previous entry for that port
while leaving all other ports' entries and the at-most-one-entry-
per-port invariant intact. -/
theorem c7_cache_only_after_bind (chips : List String) (a : InitArgs)
    (detect : DetectCall → Option DetectedChip) :
    (∀ e : InitError, (EspSerial_init chips a detect).result = .error e →
      (EspSerial_construct chips a detect).1 = a.port_target_cache) ∧
    (∀ p t : String, (EspSerial_init chips a detect).result = .ok (p, t) →
      (EspSerial_construct chips a detect).1 = dictSet a.port_target_cache p t ∧
      dictGet (EspSerial_construct chips a detect).1 p = some t ∧
      (∀ q : String, q ≠ p →
        dictGet (EspSerial_construct chips a detect).1 q =
          dictGet a.port_target_cache q) ∧
      (keysNodup a.port_target_cache →
        keysNodup (EspSerial_construct chips a detect).1)) := by
  constructor
  · intro e he
    simp only [EspSerial_construct, he]
  · intro p t hp
    have hc : (EspSerial_construct chips a detect).1 =
        dictSet a.port_target_cache p t := by
      simp only [EspSerial_construct, EspSerial_post_init, hp]
    refine ⟨hc, ?_, ?_, ?_⟩
    · rw [hc]
      exact dictGet_dictSet_self a.port_target_cache p t
    · intro q hq
      rw [hc]
      exact dictGet_dictSet_other a.port_target_cache p t q hq
    · intro hn
      rw [hc]
      exact keysNodup_dictSet a.port_target_cache p t hn

/-- C7 (witness): a successful bind overwrites the stale entry for
the resolved port and keeps the other entry. -/
theorem c7_witness :
    (EspSerial_construct ["esp32"]
        ⟨some "esp32", none, some "/dev/ttyUSB0", [], [],
          [("/dev/ttyUSB0", "esp8266"), ("/dev/ttyS0", "esp32")]⟩
        (fun _ => some ⟨"/dev/ttyUSB0", "ESP32"⟩)).1 =
      [("/dev/ttyUSB0", "esp32"), ("/dev/ttyS0", "esp32")] ∧
    dictGet [("/dev/ttyUSB0", "esp8266"), ("/dev/ttyS0", "esp32")]
        "/dev/ttyUSB0" = some "esp8266" := by
  have h := (c7_cache_only_after_bind ["esp32"]
    ⟨some "esp32", none, some "/dev/ttyUSB0", [], [],
      [("/dev/ttyUSB0", "esp8266"), ("/dev/ttyS0", "esp32")]⟩
    (fun _ => some ⟨"/dev/ttyUSB0", "ESP32"⟩)).2 "/dev/ttyUSB0" "esp32"
    (by decide)
  rw [h.1]
  exact ⟨by decide, by decide⟩

/-- C8: when the detection routine (invoked once, with
connect_attempts = 3) finds no connected device among the
candidates, construction fails terminally with the device-not-found
ValueError; the constructor performs no retry of its own. -/
theorem c8_detect_none_fails (chips : List String) (a : InitArgs)
    (detect : DetectCall → Option DetectedChip)
    (hv : targetOk chips (pyOrStr a.beta_target a.target) = true)
    (hd : detect ⟨candidatePorts a, a.port, 3⟩ = none) :
    EspSerial_init chips a detect =
      ⟨some ⟨candidatePorts a, a.port, 3⟩, .error .deviceNotFound⟩ :=
  EspSerial_init_detect_none chips a detect hv hd

/-- C8 (witness): no device responds on the only candidate port. -/
theorem c8_witness :
    EspSerial_init ["esp32"] ⟨some "auto", none, none, ["/dev/ttyUSB0"], [], []⟩
        (fun _ => none) =
      ⟨some ⟨["/dev/ttyUSB0"], none, 3⟩, .error .deviceNotFound⟩ := by
  have h := c8_detect_none_fails ["esp32"]
    ⟨some "auto", none, none, ["/dev/ttyUSB0"], [], []⟩ (fun _ => none)
    (by decide) rfl
  rw [h]
  decide

/- ---------------------------------------------------------------
   Claims C2, C4, C9, C10: the exclusive-control session
   --------------------------------------------------------------- -/

/-- C2: evaluation at the failing input. On a fresh device
(self.stub is None) whose chip detection raises, the finally-block's
unguarded `self.stub.hard_reset()` raises AttributeError, so the
line-settings snapshot is NOT reapplied and the raw connection is
NOT closed on that exit path: the wrapped call ends with the
AttributeError and the trace contains neither applySettings nor
closeRaw (nor a hard reset). -/
theorem c2_detect_failure_skips_restore :
    use_esptool false ⟨false, true, true, true, true, true⟩ [] =
      ⟨[.suspendForwarding, .openRaw, .getSettings, .detectChip,
        .resumeForwarding], .error .attributeErrorNoneStub, false⟩ ∧
    Event.applySettings ∉
      (use_esptool false ⟨false, true, true, true, true, true⟩ []).trace ∧
    Event.closeRaw ∉
      (use_esptool false ⟨false, true, true, true, true, true⟩ []).trace ∧
    Event.stubHardReset ∉
      (use_esptool false ⟨false, true, true, true, true, true⟩ []).trace := by
  decide

/-- C4: once the stub is active, a failure of the caller-supplied
operation still runs the cleanup (hard reset, settings restore,
close) and the operation's error is what the caller sees after
cleanup; the log-forwarding session is resumed exactly once, as the
final action; and when cleanup itself fails, the cleanup failure
supersedes the operation's result or failure and is the one
reported. -/
theorem c4_op_failure_cleanup (s : Bool) (o : StepOutcomes)
    (opEvents : List Event)
    (h1 : o.detect_ok = true) (h2 : o.connect_ok = true)
    (h3 : o.run_stub_ok = true)
    (h4 : Event.resumeForwarding ∉ opEvents) :
    ((use_esptool s o opEvents).trace.count .resumeForwarding = 1) ∧
    ((use_esptool s o opEvents).trace.getLast? = some .resumeForwarding) ∧
    (o.op_ok = false → o.hard_reset_ok = true → o.apply_settings_ok = true →
      (use_esptool s o opEvents).outcome = .error .opFailed ∧
      Event.stubHardReset ∈ (use_esptool s o opEvents).trace ∧
      Event.applySettings ∈ (use_esptool s o opEvents).trace ∧
      Event.closeRaw ∈ (use_esptool s o opEvents).trace) ∧
    (o.hard_reset_ok = false →
      (use_esptool s o opEvents).outcome = .error .hardResetFailed) ∧
    (o.hard_reset_ok = true → o.apply_settings_ok = false →
      (use_esptool s o opEvents).outcome = .error .applySettingsFailed) := by
  obtain ⟨d, c, r, op, hr, ap⟩ := o
  simp only at h1 h2 h3
  subst h1; subst h2; subst h3
  have h0 : opEvents.count Event.resumeForwarding = 0 :=
    List.count_eq_zero.mpr h4
  cases op <;> cases hr <;> cases ap <;>
    simp [use_esptool, useEsptoolBody, useEsptoolFinally, List.count_append,
      List.count_cons, List.count_singleton, h0] <;>
    (rw [← List.cons_append, List.getLast?_append]; rfl)

/-- C4 (witness): an operation failure with healthy cleanup is
reported as the operation error with forwarding resumed once, and a
cleanup failure supersedes the operation failure. -/
theorem c4_witness :
    (use_esptool true ⟨true, true, true, false, true, true⟩ []).outcome =
      .error .opFailed ∧
    (use_esptool true ⟨true, true, true, false, true, true⟩
        []).trace.count .resumeForwarding = 1 ∧
    (use_esptool true ⟨true, true, true, false, false, true⟩ []).outcome =
      .error .hardResetFailed := by
  have ha := c4_op_failure_cleanup true ⟨true, true, true, false, true, true⟩
    [] rfl rfl rfl (by decide)
  have hb := c4_op_failure_cleanup true ⟨true, true, true, false, false, true⟩
    [] rfl rfl rfl (by decide)
  exact ⟨(ha.2.2.1 rfl rfl rfl).1, ha.1, hb.2.2.2.1 rfl⟩

/-- C9: hard_reset's wrapped body is a no-op (its opEvents are
empty by definition), and on a healthy session the only hard reset
of the device is the one issued by the session protocol's
unconditional cleanup step: the full trace contains stubHardReset
exactly once, between the body invocation and the settings
restore. -/
theorem c9_hard_reset_noop (s : Bool) (o : StepOutcomes)
    (h1 : o.detect_ok = true) (h2 : o.connect_ok = true)
    (h3 : o.run_stub_ok = true) (h4 : o.op_ok = true)
    (h5 : o.hard_reset_ok = true) (h6 : o.apply_settings_ok = true) :
    hard_reset s o = use_esptool s o [] ∧
    (hard_reset s o).trace =
      [.suspendForwarding, .openRaw, .getSettings, .detectChip,
        .connectHardReset, .runStub, .opRun, .stubHardReset, .applySettings,
        .closeRaw, .resumeForwarding] ∧
    (hard_reset s o).trace.count .stubHardReset = 1 ∧
    (hard_reset s o).outcome = .ok () := by
  obtain ⟨d, c, r, op, hr, ap⟩ := o
  simp only at h1 h2 h3 h4 h5 h6
  subst h1; subst h2; subst h3; subst h4; subst h5; subst h6
  cases s <;> exact ⟨rfl, by decide, by decide, by decide⟩

/-- C9 (witness): a healthy hard reset on a fresh device. -/
theorem c9_witness :
    (hard_reset false ⟨true, true, true, true, true, true⟩).trace.count
        .stubHardReset = 1 ∧
    (hard_reset false ⟨true, true, true, true, true, true⟩).trace =
      [.suspendForwarding, .openRaw, .getSettings, .detectChip,
        .connectHardReset, .runStub, .opRun, .stubHardReset, .applySettings,
        .closeRaw, .resumeForwarding] := by
  have h := c9_hard_reset_noop false ⟨true, true, true, true, true, true⟩
    rfl rfl rfl rfl rfl rfl
  exact ⟨h.2.2.1, h.2.1⟩

/-- C10: starting the serial session performs exactly one
hard_reset, i.e. one full exclusive-control cycle — suspend
forwarding, open the raw connection, snapshot settings, detect chip,
connect, upload the stub, run the (empty) body, hard reset, restore
settings, close, resume forwarding — before normal log forwarding
proceeds. -/
theorem c10_start_single_cycle (s : Bool) (o : StepOutcomes)
    (h1 : o.detect_ok = true) (h2 : o.connect_ok = true)
    (h3 : o.run_stub_ok = true) (h4 : o.op_ok = true)
    (h5 : o.hard_reset_ok = true) (h6 : o.apply_settings_ok = true) :
    EspSerial_start s o = hard_reset s o ∧
    (EspSerial_start s o).trace =
      [.suspendForwarding, .openRaw, .getSettings, .detectChip,
        .connectHardReset, .runStub, .opRun, .stubHardReset, .applySettings,
        .closeRaw, .resumeForwarding] ∧
    (EspSerial_start s o).trace.count .stubHardReset = 1 ∧
    (EspSerial_start s o).trace.count .suspendForwarding = 1 ∧
    (EspSerial_start s o).trace.count .resumeForwarding = 1 := by
  obtain ⟨d, c, r, op, hr, ap⟩ := o
  simp only at h1 h2 h3 h4 h5 h6
  subst h1; subst h2; subst h3; subst h4; subst h5; subst h6
  cases s <;> exact ⟨rfl, by decide, by decide, by decide, by decide⟩

/-- C10 (witness): a healthy session start. -/
theorem c10_witness :
    (EspSerial_start true ⟨true, true, true, true, true, true⟩).trace.count
        .stubHardReset = 1 :=
  (c10_start_single_cycle true ⟨true, true, true, true, true, true⟩
    rfl rfl rfl rfl rfl rfl).2.2.1
